import Mathlib

/-!
Verification of the resource location resolver library
(`src/Locations.ts`, `src/Appx.ts`, and the INI module appended to
`Locations.ts`) against its natural-language specification.

Modelling conventions (shallow embedding of the TypeScript source):
* `throw new Error(msg)` is modelled by `Except.error msg` with `msg` the
  exact message string built by the source.
* Ambient effects become explicit inputs: `process.env` is
  `env : String → Option String`, `os.homedir()` is `home : String`,
  `fs.existsSync` is `fsE : String → Bool`, `fs/promises.readFile` is
  `fsR : String → Except IOErr String` (an `IOErr` carries the `path` and
  `code` fields of a Node filesystem error), and the external
  `powershell.exe` invocation of `Appx.ts` is a `ProcOutcome` record
  together with a `jsonParse` oracle standing for the runtime's
  `JSON.parse` at the `AppxPackage` schema.
* JavaScript `Map` (which preserves insertion order and overwrites in
  place on `set`) is modelled by an association list with the
  corresponding `mapSet` / `mapGet` operations.  A `Map` value that is
  the JS `undefined` (a key/value line with no `=`) is `Option.none`.
* JavaScript string primitives used by the source (`split`, `startsWith`
  with a one-character argument, `endsWith`, `slice(1, -1)`) are
  implemented over `List Char` so that every definition evaluates by
  kernel reduction.
* Node's `path.join` is modelled as separator-aware concatenation
  (without dot-segment normalisation, which the source never relies on).
-/

/-- JS `String.prototype.split` with a one-character separator, over char
lists; `"".split(c)` is `[""]`, i.e. the result is never empty. -/
def splitOnCharList (c : Char) : List Char → List (List Char)
  | [] => [[]]
  | d :: rest =>
    let r := splitOnCharList c rest
    if d = c then [] :: r
    else
      match r with
      | [] => [[d]]
      | g :: gs => (d :: g) :: gs

/-- JS `s.split(sep)` for a one-character separator. -/
def jsSplit (sep : Char) (s : String) : List String :=
  (splitOnCharList sep s.data).map (fun cs => String.mk cs)

/-- JS `s.startsWith(c)` for a one-character argument. -/
def headCharIs (c : Char) (s : String) : Bool :=
  match s.data with
  | [] => false
  | d :: _ => d = c

/-- JS `s.endsWith(c)` for a one-character argument. -/
def lastCharIs (c : Char) (s : String) : Bool :=
  match s.data.getLast? with
  | some d => d = c
  | none => false

/-- JS `s.slice(1, -1)`: the string without its first and last character. -/
def sliceInner (s : String) : String :=
  let t := s.data.drop 1
  String.mk (t.take (t.length - 1))

/-- Node `path.join(a, b)`: join with `/`, collapsing a trailing
separator of `a` (the only normalisation the source relies on). -/
def pathJoin (a b : String) : String :=
  if lastCharIs '/' a then a ++ b else a ++ "/" ++ b

/-- JS `Map.prototype.set`: overwrite in place if the key is present
(keeping its original insertion position), otherwise append. -/
def mapSet {α : Type} (m : List (String × α)) (k : String) (v : α) :
    List (String × α) :=
  match m with
  | [] => [(k, v)]
  | (k', v') :: rest =>
    if k' = k then (k, v) :: rest else (k', v') :: mapSet rest k v

/-- JS `Map.prototype.get`: the value at `k`, or `none` (`undefined`). -/
def mapGet {α : Type} (m : List (String × α)) (k : String) : Option α :=
  match m with
  | [] => none
  | (k', v) :: rest => if k' = k then some v else mapGet rest k

/-- One section of an INI document: a JS `Map<string, string>` whose
values may be the JS `undefined` (a line with no `=`), hence
`Option String`. -/
abbrev IniSection := List (String × Option String)

/-- `IniData` from the INI module: a global mapping plus a mapping from
section name to section, both in insertion order. -/
structure IniData where
  global : IniSection
  sections : List (String × IniSection)
deriving DecidableEq, Repr

/-- The parser's loop state: `current = none` means the current section
is the global mapping; `current = some name` aliases the entry of
`sections` named `name` (in the source, the `currentSection` variable and
the `sections` map share the same mutable `Map` object). -/
structure IniParseState where
  global : IniSection
  sections : List (String × IniSection)
  current : Option String
deriving DecidableEq, Repr

/-- `currentSection.set(key, value)`: write through the alias recorded in
`current`. -/
def iniStateSet (st : IniParseState) (k : String) (v : Option String) :
    IniParseState :=
  match st.current with
  | none => { st with global := mapSet st.global k v }
  | some name =>
    { st with
      sections :=
        mapSet st.sections name (mapSet ((mapGet st.sections name).getD []) k v) }

/-- The body of `parseIni`'s loop, applied to one iteration value `line`:
skip blank lines and `;` comments; a line of the form `[name]` opens a
fresh section named `name` and makes it current; any other line is split
on `=` (JS `split("=", 2)`: key is the first segment, value the second or
`undefined`) and inserted into the current section. -/
def parseIniLine (st : IniParseState) (line : String) : IniParseState :=
  if line = "" || headCharIs ';' line then st
  else if headCharIs '[' line && lastCharIs ']' line then
    let name := sliceInner line
    { st with sections := mapSet st.sections name [], current := some name }
  else
    let parts := jsSplit '=' line
    iniStateSet st (parts.headD "") parts[1]?

/-- `parseIni` from the INI module, as written: the source iterates
`for (const line in lines)`, and JS `for..in` over an array enumerates
its index strings `"0"`, `"1"`, …, not its elements, so the loop body
receives the decimal index strings. -/
def parseIni (data : String) : IniData :=
  let lines := jsSplit '\n' data
  let st := (List.range lines.length).foldl
    (fun st i => parseIniLine st (toString i)) ⟨[], [], none⟩
  ⟨st.global, st.sections⟩

/-- Modelled from the spec: the Metadata Reader of §4.4, whose
line-oriented rules apply to the *contents* of each line (the iteration
an implementer would write as `for (const line of lines)`).  Kept beside
`parseIni` to compare the source's behaviour with the specified one. -/
def parseIniSpec (data : String) : IniData :=
  let lines := jsSplit '\n' data
  let st := lines.foldl parseIniLine ⟨[], [], none⟩
  ⟨st.global, st.sections⟩

/-- A Node filesystem error as consumed by the source: only its `path`
and `code` fields are read. -/
structure IOErr where
  path : String
  code : String
deriving DecidableEq, Repr

/-- `readIni` from the INI module: read the file as text (the filesystem
oracle `fsR`), then parse; a read failure propagates unchanged. -/
def readIni (fsR : String → Except IOErr String) (p : String) :
    Except IOErr IniData :=
  match fsR p with
  | .error e => .error e
  | .ok data => .ok (parseIni data)

/-- `MCPEVersion` from `Locations.ts`; `versionCode = none` models the
JS `NaN` produced by a failed `Number.parseInt`. -/
structure MCPEVersion where
  versionCode : Option Int
  versionName : String
deriving DecidableEq, Repr

/-- Value of a decimal digit character (codepoints 48–57), `none` if not
a digit. -/
def decDigit? (c : Char) : Option Nat :=
  let n := c.toNat
  if 48 ≤ n ∧ n ≤ 57 then some (n - 48) else none

/-- Value of a hexadecimal digit character (codepoints 48–57, 97–102,
65–70), `none` if not a hex digit. -/
def hexDigit? (c : Char) : Option Nat :=
  let n := c.toNat
  if 48 ≤ n ∧ n ≤ 57 then some (n - 48)
  else if 97 ≤ n ∧ n ≤ 102 then some (n - 87)
  else if 65 ≤ n ∧ n ≤ 70 then some (n - 55)
  else none

/-- Accumulate the longest prefix of digits (per `digit?`) into a value
in the given base; `none` when there is no leading digit (JS `NaN`). -/
def takeDigits (digit? : Char → Option Nat) (base : Nat) :
    List Char → Option Nat → Option Nat
  | [], acc => acc
  | c :: rest, acc =>
    match digit? c with
    | some d => takeDigits digit? base rest (some ((acc.getD 0) * base + d))
    | none => acc

/-- JS `Number.parseInt(s)` (radix unspecified): skip leading whitespace,
read an optional sign, use base 16 after a `0x`/`0X` prefix and base 10
otherwise, parse the longest digit prefix, and yield `NaN` (`none`) when
no digit is found. -/
def jsParseInt (s : String) : Option Int :=
  let cs := s.data.dropWhile (fun c => c.isWhitespace)
  let (neg, cs) :=
    match cs with
    | '-' :: rest => (true, rest)
    | '+' :: rest => (false, rest)
    | _ => (false, cs)
  let mag :=
    match cs with
    | '0' :: 'x' :: rest => takeDigits hexDigit? 16 rest none
    | '0' :: 'X' :: rest => takeDigits hexDigit? 16 rest none
    | _ => takeDigits decDigit? 10 cs none
  match mag with
  | none => none
  | some n => some (if neg then -(n : Int) else (n : Int))

/-- `parseVersionSection` from `Locations.ts`: `versionCode` is
`Number.parseInt(section.get("versionCode") as string)` (a missing key or
`undefined` value parses as `NaN`), `versionName` is
`section.get("versionName") || ""`. -/
def parseVersionSection (sect : IniSection) : MCPEVersion :=
  { versionCode :=
      match mapGet sect "versionCode" with
      | some (some s) => jsParseInt s
      | _ => none
    versionName :=
      match mapGet sect "versionName" with
      | some (some s) => s
      | _ => "" }

/-- JS `>` on two `number`s that may be `NaN`: any comparison involving
`NaN` is false. -/
def jsNumGt (a b : Option Int) : Bool :=
  match a, b with
  | some x, some y => decide (y < x)
  | _, _ => false

/-- The records the source keeps after mapping `parseVersionSection` over
`[...iniData.sections.values()]` and filtering with
`!Number.isNaN(v.versionCode) && v.versionName`. -/
def validVersions (d : IniData) : List MCPEVersion :=
  (d.sections.map (fun s => parseVersionSection s.2)).filter
    (fun v => v.versionCode.isSome && !(v.versionName == ""))

/-- The running-maximum loop of `getAssetsLocation_mcpelauncher`:
`maxVersion` starts at `versions[0]` and is replaced exactly when a later
record's `versionCode` is strictly greater. -/
def runningMax (versions : List MCPEVersion) (init : MCPEVersion) :
    MCPEVersion :=
  versions.foldl
    (fun m v => if jsNumGt v.versionCode m.versionCode then v else m) init

/-- The error thrown when no valid version record remains; its text ends
with the versions.ini path it names. -/
def noValidVersionMsg (versionsIniPath : String) : String :=
  "Could not determine the location of Bedrock's asset files. The mcpe-launcher versions file did not contain a valid version (or the format has been changed).\nPath: "
    ++ versionsIniPath

/-- The error wrapping a failed `readIni`, naming the filesystem error's
`path` and `code`. -/
def iniReadErrMsg (e : IOErr) : String :=
  "Could not determine the location of Bedrock's asset files. There was an error reading the mcpe-launcher versions.ini file.\nPath: "
    ++ e.path ++ "\nCode: " ++ e.code

/-- The version-selection stage of `getAssetsLocation_mcpelauncher`
(everything after `readIni` returned `iniData`): filter the parsed
records, take the running maximum, and either fail naming the
versions.ini path or return
`path.join(rootInstallPath, "versions", maxVersion.versionName, "assets")`. -/
def selectVersion (iniData : IniData) (rootInstallPath : String) :
    Except String String :=
  let versionsIniPath := pathJoin rootInstallPath "versions/versions.ini"
  match validVersions iniData with
  | [] => .error (noValidVersionMsg versionsIniPath)
  | v0 :: rest =>
    .ok (pathJoin
      (pathJoin (pathJoin rootInstallPath "versions")
        (runningMax (v0 :: rest) v0).versionName)
      "assets")

/-- `getAssetsLocation_mcpelauncher` from `Locations.ts`: read
`<root>/versions/versions.ini` (wrapping a read failure with its path and
code), then select the newest valid version. -/
def getAssetsLocation_mcpelauncher (fsR : String → Except IOErr String)
    (rootInstallPath : String) : Except String String :=
  match readIni fsR (pathJoin rootInstallPath "versions/versions.ini") with
  | .error e => .error (iniReadErrMsg e)
  | .ok iniData => selectVersion iniData rootInstallPath

/-- `Promise.all` over the already-started per-root promises: the first
rejection rejects the whole call, otherwise all results are collected in
order. -/
def collectResults : List (Except String String) → Except String (List String)
  | [] => .ok []
  | .error e :: _ => .error e
  | .ok p :: rest =>
    match collectResults rest with
    | .error e => .error e
    | .ok ps => .ok (p :: ps)

/-- The shared body of `getAssetsLocations_MacOS` and
`getAssetsLocations_Linux`: keep the launcher roots that exist
(`mcpeLauncherPaths.filter(fs.existsSync)`), then
`Promise.all(existingPaths.map(sel))`. -/
def mapExistingRoots (fsE : String → Bool)
    (sel : String → Except String String) (roots : List String) :
    Except String (List String) :=
  collectResults ((roots.filter fsE).map sel)

/-- The single MacOS launcher root candidate (note the source's trailing
slash). -/
def macLauncherRoots (home : String) : List String :=
  [pathJoin home "Library/Application Support/mcpelauncher/"]

/-- The two Linux launcher root candidates. -/
def linuxLauncherRoots (home : String) : List String :=
  [pathJoin home ".local/share/mcpelauncher",
   pathJoin home ".var/app/io.mrarm.mcpelauncher/data/mcpelauncher"]

/-- `getAssetsLocations_MacOS` from `Locations.ts`. -/
def getAssetsLocations_MacOS (home : String) (fsE : String → Bool)
    (fsR : String → Except IOErr String) : Except String (List String) :=
  mapExistingRoots fsE (getAssetsLocation_mcpelauncher fsR)
    (macLauncherRoots home)

/-- `getAssetsLocations_Linux` from `Locations.ts`. -/
def getAssetsLocations_Linux (home : String) (fsE : String → Bool)
    (fsR : String → Except IOErr String) : Except String (List String) :=
  mapExistingRoots fsE (getAssetsLocation_mcpelauncher fsR)
    (linuxLauncherRoots home)

/-- The fields of the `AppxPackage` interface that `Locations.ts`
consumes (`InstallLocation`; the remaining fields of the TS interface are
never read by this repository and are omitted from the model). -/
structure AppxPackage where
  Name : String
  InstallLocation : String
deriving DecidableEq, Repr

/-- The observable outcome of the `execFile("powershell.exe", …)` call in
`Appx.ts`: `procError` is the `error` callback argument's message (a
launch failure, non-zero exit, or the 500 ms timeout), and `stdout` /
`stderr` are the captured streams. -/
structure ProcOutcome where
  procError : Option String
  stdout : String
  stderr : String
deriving DecidableEq, Repr

/-- `GetAppxPackage` from `Appx.ts`: reject with the process error's
message if the process errored, else reject with the stderr text if any
diagnostic output appeared, else parse stdout as an `AppxPackage`
(`jsonParse` models `JSON.parse`, whose failure message is rethrown). -/
def GetAppxPackage (proc : ProcOutcome)
    (jsonParse : String → Except String AppxPackage) :
    Except String AppxPackage :=
  match proc.procError with
  | some m => .error m
  | none =>
    if proc.stderr = "" then
      match jsonParse proc.stdout with
      | .ok pkg => .ok pkg
      | .error e => .error e
    else .error proc.stderr

/-- The wrapper `getAssetsLocations_Windows` applies to any
`GetAppxPackage` failure; the underlying message is kept verbatim after
the context line. -/
def appxWrapMsg (m : String) : String :=
  "Could not determine the location of Bedrock's asset files. The package details command returned the following error:\n"
    ++ m

/-- `getAssetsLocations_Windows` from `Locations.ts`: delegate to
`GetAppxPackage("Microsoft.MinecraftUWP")`, wrap any failure, and on
success return the single candidate
`path.join(packageData.InstallLocation, "data")`. -/
def getAssetsLocations_Windows (proc : ProcOutcome)
    (jsonParse : String → Except String AppxPackage) :
    Except String (List String) :=
  match GetAppxPackage proc jsonParse with
  | .error e => .error (appxWrapMsg e)
  | .ok packageData => .ok [pathJoin packageData.InstallLocation "data"]

/-- The error thrown by `checkExists` when no candidate path exists. -/
def noCandidatesMsg : String :=
  "Could not determine the location of Bedrock's data files. The game is not installed or is installed in an unsupported location."

/-- `checkExists` from `Locations.ts`: keep the paths that exist and fail
if none remain. -/
def checkExists (fsE : String → Bool) (paths : List String) :
    Except String (List String) :=
  let existingPaths := paths.filter fsE
  if existingPaths.length = 0 then .error noCandidatesMsg
  else .ok existingPaths

/-- The error thrown when the LOCALAPPDATA environment variable is not
truthy. -/
def missingLocalAppDataMsg : String :=
  "Could not determine the location of Bedrock's data files. The LOCALAPPDATA environment variable is missing."

/-- The fixed relative path joined onto `%LOCALAPPDATA%`. -/
def uwpRelPath : String :=
  "Packages/Microsoft.MinecraftUWP_8wekyb3d8bbwe/LocalState/games/com.mojang"

/-- `getDataLocations_Windows` from `Locations.ts`: the guard
`if (process.env["LOCALAPPDATA"])` is JS truthiness, so an absent *or
empty* variable takes the error branch. -/
def getDataLocations_Windows (env : String → Option String) :
    Except String (List String) :=
  match env "LOCALAPPDATA" with
  | some v => if v = "" then .error missingLocalAppDataMsg
              else .ok [pathJoin v uwpRelPath]
  | none => .error missingLocalAppDataMsg

/-- `getDataLocations_MacOS` from `Locations.ts`. -/
def getDataLocations_MacOS (home : String) : List String :=
  [pathJoin home "Library/Application Support/mcpelauncher/games/com.mojang"]

/-- `getDataLocations_Linux` from `Locations.ts`. -/
def getDataLocations_Linux (home : String) : List String :=
  [pathJoin home ".local/share/mcpelauncher/games/com.mojang",
   pathJoin home ".var/app/io.mrarm.mcpelauncher/data/mcpelauncher/games/com.mojang"]

/-- `getDataLocations_Android` from `Locations.ts`: two fixed absolute
paths. -/
def getDataLocations_Android : List String :=
  ["/data/data/com.mojang.minecraftpe/games/com.mojang",
   "/sdcard/games/com.mojang"]

/-- The unsupported-platform error of `getDataLocations`, naming the
platform and listing the supported set. -/
def dataUnsupportedMsg (platform : String) : String :=
  "Could not determine the location of Bedrock's data files. The current platform ("
    ++ platform
    ++ ") is not supported. Supported platforms: win32 (Windows), darwin (MacOS), linux, android"

/-- The unsupported-platform error of `getAssetsLocations`, naming the
platform and listing the supported set (which omits android). -/
def assetsUnsupportedMsg (platform : String) : String :=
  "Could not determine the location of Bedrock's asset files. The current platform ("
    ++ platform
    ++ ") is not supported. Supported platforms: win32 (Windows), darwin (MacOS), linux"

/-- `getDataLocations` from `Locations.ts`: dispatch on `os.platform()`
(the `platform` argument), produce the per-platform candidates, and
existence-filter them with `checkExists`. -/
def getDataLocations (platform : String) (env : String → Option String)
    (home : String) (fsE : String → Bool) : Except String (List String) :=
  match platform with
  | "win32" =>
    match getDataLocations_Windows env with
    | .error e => .error e
    | .ok paths => checkExists fsE paths
  | "darwin" => checkExists fsE (getDataLocations_MacOS home)
  | "linux" => checkExists fsE (getDataLocations_Linux home)
  | "android" => checkExists fsE getDataLocations_Android
  | _ => .error (dataUnsupportedMsg platform)

/-- `getAssetsLocations` from `Locations.ts`: dispatch on
`os.platform()`, build the per-platform asset candidates, and
existence-filter the result with `checkExists`; note that android falls
through to the unsupported-platform error here. -/
def getAssetsLocations (platform home : String) (fsE : String → Bool)
    (fsR : String → Except IOErr String) (proc : ProcOutcome)
    (jsonParse : String → Except String AppxPackage) :
    Except String (List String) :=
  match platform with
  | "win32" =>
    match getAssetsLocations_Windows proc jsonParse with
    | .error e => .error e
    | .ok paths => checkExists fsE paths
  | "darwin" =>
    match getAssetsLocations_MacOS home fsE fsR with
    | .error e => .error e
    | .ok paths => checkExists fsE paths
  | "linux" =>
    match getAssetsLocations_Linux home fsE fsR with
    | .error e => .error e
    | .ok paths => checkExists fsE paths
  | _ => .error (assetsUnsupportedMsg platform)

/-- The strict-improvement running-max step over an integer measure. -/
def intMaxStep {α : Type} (f : α → Int) (a b : α) : α :=
  if f a < f b then b else a

/-- The integer the source's `>` comparison sees for a record that passed
the `Number.isNaN` filter. -/
def valOf (v : MCPEVersion) : Int := v.versionCode.getD 0

/-- A two-section versions document with codes 1 and 2, as in the spec's
test property. -/
def sampleVersionsDoc : IniData :=
  ⟨[], [("1", [("versionCode", some "1"), ("versionName", some "x")]),
        ("2", [("versionCode", some "2"), ("versionName", some "y")])]⟩

/-- A versions document whose records are all invalid: one section's
`versionCode` does not parse, the other (numerically largest) has no
`versionName`. -/
def sampleInvalidDoc : IniData :=
  ⟨[], [("a", [("versionCode", some "oops"), ("versionName", some "z")]),
        ("b", [("versionCode", some "7")])]⟩

/-! ## General lemmas about the embedded operations -/

/-- A `mapGet` after `mapSet` at the same key sees the written value:
JS `Map.set` insert-overwrite semantics, i.e. the most recent write for a
key wins. -/
theorem mapGet_mapSet_self {α : Type} (m : List (String × α)) (k : String)
    (v : α) : mapGet (mapSet m k v) k = some v := by
  induction m with
  | nil => simp [mapSet, mapGet]
  | cons hd tl ih =>
    obtain ⟨k', v'⟩ := hd
    by_cases hk : k' = k
    · simp [mapSet, mapGet, hk]
    · simp [mapSet, mapGet, hk, ih]

/-- `checkExists` never succeeds with an empty list. -/
theorem checkExists_ok_ne_nil {fsE : String → Bool} {paths l : List String}
    (h : checkExists fsE paths = .ok l) : l ≠ [] := by
  simp only [checkExists] at h
  split at h
  · exact absurd h (by simp)
  · rename_i hlen
    intro hnil
    apply hlen
    cases h
    simpa using hnil

/-- When no path exists at all, `checkExists` fails with the
no-candidates error. -/
theorem checkExists_all_false {fsE : String → Bool} (paths : List String)
    (hf : ∀ s, fsE s = false) : checkExists fsE paths = .error noCandidatesMsg := by
  have hfil : paths.filter fsE = [] := by
    rw [List.filter_eq_nil_iff]
    intro x _
    simp [hf x]
  simp [checkExists, hfil]

/-! ## Claim theorems -/

/-- C1: the Metadata Reader round-trip fails on the code as written.
Because `for..in` iterates the index strings of the line array, parsing
`"[a]\nversionCode=5\nversionName=foo\n"` yields *zero* sections and a
global mapping keyed by `"0"`–`"3"` with undefined values, and parsing a
comments/blank-only text yields a *non-empty* global mapping — while the
spec-modelled reader (`parseIniSpec`, iterating line contents) produces
exactly the document the claim describes. -/
theorem parseIni_round_trip_diverges :
    parseIni "[a]\nversionCode=5\nversionName=foo\n" =
      { global := [("0", none), ("1", none), ("2", none), ("3", none)],
        sections := [] }
    ∧ parseIniSpec "[a]\nversionCode=5\nversionName=foo\n" =
      { global := [],
        sections := [("a", [("versionCode", some "5"),
                            ("versionName", some "foo")])] }
    ∧ parseIni "; comment\n\n" =
      { global := [("0", none), ("1", none), ("2", none)], sections := [] }
    ∧ parseIniSpec "; comment\n\n" = { global := [], sections := [] } := by
  refine ⟨?_, ?_, ?_, ?_⟩ <;> rfl

/-- C7 counterexample: in the document the Metadata Reader produces for
`"x=1\nx=2"`, the duplicated key `"x"` is not stored at all (the loop
iterates index strings), so the claimed first-occurrence-wins behaviour
fails: the lookup of `"x"` yields nothing rather than `"1"`. -/
theorem parseIni_duplicate_key_counterexample :
    mapGet (parseIni "x=1\nx=2").global "x" = none
    ∧ (parseIni "x=1\nx=2").global = [("0", none), ("1", none)] := by
  exact ⟨rfl, rfl⟩

/-- C7 amended: duplicate keys within a section are resolved by the JS
`Map` insert-overwrite, so the key is stored once with the value of the
*last* occurrence (not the first); moreover the reader as written stores
key/value lines under their line-index string, so a duplicated textual
key never collides at all.  Shown for the map primitive the parser uses
and for the spec-modelled line-content iteration, globally and inside a
named section. -/
theorem metadata_duplicate_key_last_write_wins :
    (∀ (m : IniSection) (k : String) (v : Option String),
      mapGet (mapSet m k v) k = some v)
    ∧ mapGet (parseIniSpec "x=1\nx=2").global "x" = some (some "2")
    ∧ mapGet ((mapGet (parseIniSpec "[s]\nk=a\nk=b").sections "s").getD [])
        "k" = some (some "b")
    ∧ mapGet (parseIni "x=1\nx=2").global "x" = none := by
  exact ⟨fun m k v => mapGet_mapSet_self m k v, rfl, rfl, rfl⟩

/-- C10: the platform identifier `"android"` is in the data resolver's
supported set (two fixed absolute candidates) but not in the asset
resolver's: `getAssetsLocations` on android always fails with the
unsupported-platform error, whose text names android and whose supported
list omits it. -/
theorem android_data_supported_assets_unsupported :
    (∀ (env : String → Option String) (home : String),
      getDataLocations "android" env home (fun _ => true) =
        .ok ["/data/data/com.mojang.minecraftpe/games/com.mojang",
             "/sdcard/games/com.mojang"])
    ∧ (∀ (home : String) (fsE : String → Bool)
        (fsR : String → Except IOErr String) (proc : ProcOutcome)
        (jsonParse : String → Except String AppxPackage),
        getAssetsLocations "android" home fsE fsR proc jsonParse =
          .error (assetsUnsupportedMsg "android"))
    ∧ (∃ pre post, assetsUnsupportedMsg "android" = pre ++ "android" ++ post)
    ∧ assetsUnsupportedMsg "android" =
      "Could not determine the location of Bedrock's asset files. The current platform (android) is not supported. Supported platforms: win32 (Windows), darwin (MacOS), linux" := by
  refine ⟨fun env home => rfl, fun home fsE fsR proc jsonParse => rfl,
    ⟨"Could not determine the location of Bedrock's asset files. The current platform (",
     ") is not supported. Supported platforms: win32 (Windows), darwin (MacOS), linux",
     rfl⟩, rfl⟩

/-- C6: on any platform identifier outside the supported set both
resolvers fail — independently of the filesystem, environment and
external-process inputs — with the unsupported-platform message, which
names the identifier and lists the supported platforms. -/
theorem unsupported_platform_fails_immediately
    (p : String) (hp : p ∉ (["win32", "darwin", "linux", "android"] : List String))
    (env : String → Option String) (home : String) (fsE : String → Bool)
    (fsR : String → Except IOErr String) (proc : ProcOutcome)
    (jp : String → Except String AppxPackage) :
    getDataLocations p env home fsE = .error (dataUnsupportedMsg p)
    ∧ getAssetsLocations p home fsE fsR proc jp =
        .error (assetsUnsupportedMsg p)
    ∧ (∃ pre post, dataUnsupportedMsg p = pre ++ p ++ post)
    ∧ (∃ a, dataUnsupportedMsg p =
        a ++ "win32 (Windows), darwin (MacOS), linux, android")
    ∧ (∃ pre post, assetsUnsupportedMsg p = pre ++ p ++ post)
    ∧ (∃ a, assetsUnsupportedMsg p =
        a ++ "win32 (Windows), darwin (MacOS), linux") := by
  have h1 : p ≠ "win32" := fun hh => hp (by simp [hh])
  have h2 : p ≠ "darwin" := fun hh => hp (by simp [hh])
  have h3 : p ≠ "linux" := fun hh => hp (by simp [hh])
  have h4 : p ≠ "android" := fun hh => hp (by simp [hh])
  refine ⟨?_, ?_, ?_, ?_, ?_, ?_⟩
  · unfold getDataLocations
    split
    all_goals simp_all
  · unfold getAssetsLocations
    split
    all_goals simp_all
  · exact ⟨"Could not determine the location of Bedrock's data files. The current platform (",
      ") is not supported. Supported platforms: win32 (Windows), darwin (MacOS), linux, android",
      rfl⟩
  · refine ⟨"Could not determine the location of Bedrock's data files. The current platform ("
        ++ p ++ ") is not supported. Supported platforms: ", ?_⟩
    rw [dataUnsupportedMsg]
    simp only [String.append_assoc]
    rfl
  · exact ⟨"Could not determine the location of Bedrock's asset files. The current platform (",
      ") is not supported. Supported platforms: win32 (Windows), darwin (MacOS), linux",
      rfl⟩
  · refine ⟨"Could not determine the location of Bedrock's asset files. The current platform ("
        ++ p ++ ") is not supported. Supported platforms: ", ?_⟩
    rw [assetsUnsupportedMsg]
    simp only [String.append_assoc]
    rfl

/-- C6 witness: the theorem applied to the concrete unsupported platform
identifier `"freebsd"`. -/
theorem unsupported_platform_fails_immediately_witness :
    getDataLocations "freebsd" (fun _ => none) "/home/u" (fun _ => true) =
      .error (dataUnsupportedMsg "freebsd") :=
  (unsupported_platform_fails_immediately "freebsd" (by decide)
    (fun _ => none) "/home/u" (fun _ => true)
    (fun p => .error ⟨p, "ENOENT"⟩) ⟨none, "", ""⟩ (fun _ => .error "x")).1

/-- C8 counterexample: with `LOCALAPPDATA` present but bound to the empty
string, the variable is present yet `getDataLocations_Windows` fails with
the missing-environment error instead of returning the single joined
candidate — the truthiness guard `if (process.env["LOCALAPPDATA"])`
conflates an empty value with absence. -/
theorem localappdata_present_empty_counterexample :
    (fun k => if k = "LOCALAPPDATA" then some "" else none : String → Option String)
      "LOCALAPPDATA" = some ""
    ∧ getDataLocations_Windows
        (fun k => if k = "LOCALAPPDATA" then some "" else none) =
      .error missingLocalAppDataMsg := ⟨rfl, rfl⟩

/-- C8 amended: on win32, `getDataLocations` fails with the
missing-environment error when `LOCALAPPDATA` is absent *or empty*, and
the failure is independent of the filesystem oracle (no existence check
is consulted); when the variable is present and non-empty the single
candidate is its value joined with the fixed store-package relative
path. -/
theorem windows_data_env_gate
    (env : String → Option String) (home : String) (fsE : String → Bool) :
    ((env "LOCALAPPDATA" = none ∨ env "LOCALAPPDATA" = some "") →
      getDataLocations_Windows env = .error missingLocalAppDataMsg
      ∧ getDataLocations "win32" env home fsE =
          .error missingLocalAppDataMsg)
    ∧ (∀ v, env "LOCALAPPDATA" = some v → v ≠ "" →
        getDataLocations_Windows env = .ok [pathJoin v uwpRelPath]) := by
  constructor
  · intro h
    have hw : getDataLocations_Windows env = .error missingLocalAppDataMsg := by
      rcases h with h | h <;> simp [getDataLocations_Windows, h]
    refine ⟨hw, ?_⟩
    show (match getDataLocations_Windows env with
      | .error e => (.error e : Except String (List String))
      | .ok paths => checkExists fsE paths) = .error missingLocalAppDataMsg
    rw [hw]
  · intro v hv hne
    simp [getDataLocations_Windows, hv, hne]

/-- C8 amended witness: the theorem applied with `LOCALAPPDATA` absent. -/
theorem windows_data_env_gate_witness :
    getDataLocations "win32" (fun _ => none) "/home/u" (fun _ => true) =
      .error missingLocalAppDataMsg :=
  ((windows_data_env_gate (fun _ => none) "/home/u" (fun _ => true)).1
    (Or.inl rfl)).2

/-- C9: any `GetAppxPackage` failure — a process error or timeout, any
diagnostic stderr output, or stdout that `JSON.parse` rejects — makes the
Windows asset resolution fail with the wrapped error whose text retains
the underlying message verbatim; when the adapter succeeds, the single
candidate is the reported `InstallLocation` joined with `"data"`. -/
theorem windows_assets_wrap_and_join (proc : ProcOutcome)
    (jp : String → Except String AppxPackage) :
    (∀ m, proc.procError = some m →
      getAssetsLocations_Windows proc jp = .error (appxWrapMsg m))
    ∧ (proc.procError = none → proc.stderr ≠ "" →
        getAssetsLocations_Windows proc jp = .error (appxWrapMsg proc.stderr))
    ∧ (∀ e, proc.procError = none → proc.stderr = "" →
        jp proc.stdout = .error e →
        getAssetsLocations_Windows proc jp = .error (appxWrapMsg e))
    ∧ (∀ e, GetAppxPackage proc jp = .error e → ∃ pre, appxWrapMsg e = pre ++ e)
    ∧ (∀ pkg, proc.procError = none → proc.stderr = "" →
        jp proc.stdout = .ok pkg →
        getAssetsLocations_Windows proc jp =
          .ok [pathJoin pkg.InstallLocation "data"]) := by
  refine ⟨?_, ?_, ?_, ?_, ?_⟩
  · intro m hm
    simp [getAssetsLocations_Windows, GetAppxPackage, hm]
  · intro h0 hs
    simp [getAssetsLocations_Windows, GetAppxPackage, h0, hs]
  · intro e h0 hs he
    simp [getAssetsLocations_Windows, GetAppxPackage, h0, hs, he]
  · intro e _
    exact ⟨"Could not determine the location of Bedrock's asset files. The package details command returned the following error:\n", rfl⟩
  · intro pkg h0 hs hok
    simp [getAssetsLocations_Windows, GetAppxPackage, h0, hs, hok]

/-- C9 witness: the theorem applied to a concrete timed-out process. -/
theorem windows_assets_wrap_and_join_witness :
    getAssetsLocations_Windows ⟨some "timeout", "", ""⟩ (fun _ => .error "bad json") =
      .error (appxWrapMsg "timeout") :=
  (windows_assets_wrap_and_join ⟨some "timeout", "", ""⟩
    (fun _ => .error "bad json")).1 "timeout" rfl

/-- C2: both public resolvers either succeed with a non-empty list of
paths or fail: every success flows through `checkExists`, and when no
candidate path exists on disk the call is an error, never an empty
list. -/
theorem resolvers_never_return_empty (p home : String)
    (env : String → Option String) (fsE : String → Bool)
    (fsR : String → Except IOErr String) (proc : ProcOutcome)
    (jp : String → Except String AppxPackage) :
    (∀ l, getDataLocations p env home fsE = .ok l → l ≠ [])
    ∧ (∀ l, getAssetsLocations p home fsE fsR proc jp = .ok l → l ≠ [])
    ∧ ((∀ s, fsE s = false) →
        (getDataLocations p env home fsE).isOk = false
        ∧ (getAssetsLocations p home fsE fsR proc jp).isOk = false) := by
  refine ⟨?_, ?_, ?_⟩
  · intro l hl
    unfold getDataLocations at hl
    split at hl
    · split at hl
      · exact absurd hl (by simp)
      · exact checkExists_ok_ne_nil hl
    · exact checkExists_ok_ne_nil hl
    · exact checkExists_ok_ne_nil hl
    · exact checkExists_ok_ne_nil hl
    · exact absurd hl (by simp)
  · intro l hl
    unfold getAssetsLocations at hl
    split at hl
    · split at hl
      · exact absurd hl (by simp)
      · exact checkExists_ok_ne_nil hl
    · split at hl
      · exact absurd hl (by simp)
      · exact checkExists_ok_ne_nil hl
    · split at hl
      · exact absurd hl (by simp)
      · exact checkExists_ok_ne_nil hl
    · exact absurd hl (by simp)
  · intro hf
    constructor
    · unfold getDataLocations
      split
      · split
        · rfl
        · rw [checkExists_all_false _ hf]
          rfl
      · rw [checkExists_all_false _ hf]
        rfl
      · rw [checkExists_all_false _ hf]
        rfl
      · rw [checkExists_all_false _ hf]
        rfl
      · rfl
    · unfold getAssetsLocations
      split
      · split
        · rfl
        · rw [checkExists_all_false _ hf]
          rfl
      · split
        · rfl
        · rw [checkExists_all_false _ hf]
          rfl
      · split
        · rfl
        · rw [checkExists_all_false _ hf]
          rfl
      · rfl

/-- C2 witness: the theorem applied on linux with a filesystem where
nothing exists (both resolvers fail), and on android with a filesystem
where everything exists (a non-empty success). -/
theorem resolvers_never_return_empty_witness :
    ((getDataLocations "linux" (fun _ => none) "/home/u" (fun _ => false)).isOk = false
      ∧ (getAssetsLocations "linux" "/home/u" (fun _ => false)
          (fun q => .error ⟨q, "ENOENT"⟩) ⟨none, "", ""⟩
          (fun _ => .error "x")).isOk = false)
    ∧ ["/data/data/com.mojang.minecraftpe/games/com.mojang",
       "/sdcard/games/com.mojang"] ≠ [] :=
  ⟨(resolvers_never_return_empty "linux" "/home/u" (fun _ => none)
      (fun _ => false) (fun q => .error ⟨q, "ENOENT"⟩) ⟨none, "", ""⟩
      (fun _ => .error "x")).2.2 (fun _ => rfl),
   (resolvers_never_return_empty "android" "/home/u" (fun _ => none)
      (fun _ => true) (fun q => .error ⟨q, "ENOENT"⟩) ⟨none, "", ""⟩
      (fun _ => .error "x")).1
     ["/data/data/com.mojang.minecraftpe/games/com.mojang",
      "/sdcard/games/com.mojang"] rfl⟩

/-- `jsNumGt` is irreflexive (strict comparison). -/
theorem jsNumGt_irrefl (a : Option Int) : jsNumGt a a = false := by
  cases a <;> simp [jsNumGt]

/-- The running-max step keeps the accumulator or takes the element. -/
theorem runStep_choice (a b : MCPEVersion) :
    (if jsNumGt b.versionCode a.versionCode then b else a) = a
    ∨ (if jsNumGt b.versionCode a.versionCode then b else a) = b := by
  cases hc : jsNumGt b.versionCode a.versionCode
  · exact Or.inl (by simp [hc])
  · exact Or.inr (by simp [hc])

/-- A fold whose step always returns one of its two arguments lands in
the initial value or the list. -/
theorem foldl_mem_of_choice {α : Type} (g : α → α → α)
    (hg : ∀ a b, g a b = a ∨ g a b = b) :
    ∀ (l : List α) (m : α), l.foldl g m ∈ m :: l := by
  intro l
  induction l with
  | nil => intro m; simp
  | cons x xs ih =>
    intro m
    rw [List.foldl_cons]
    rcases List.mem_cons.mp (ih (g m x)) with h | h
    · rw [h]
      rcases hg m x with h' | h' <;> rw [h']
      · exact List.mem_cons_self m _
      · exact List.mem_cons_of_mem m (List.mem_cons_self x xs)
    · exact List.mem_cons_of_mem m (List.mem_cons_of_mem x h)

/-- Two fold steps that agree on a predicate-closed domain produce the
same fold. -/
theorem foldl_congr_pred {α : Type} (P : α → Prop) (g h : α → α → α)
    (hgh : ∀ a b, P a → P b → g a b = h a b)
    (hcl : ∀ a b, P a → P b → P (g a b)) :
    ∀ (l : List α) (m : α), P m → (∀ x ∈ l, P x) →
      l.foldl g m = l.foldl h m := by
  intro l
  induction l with
  | nil => intro m _ _; rfl
  | cons x xs ih =>
    intro m hm hl
    have hx := hl x (List.mem_cons_self x xs)
    rw [List.foldl_cons, List.foldl_cons, hgh m x hm hx]
    exact ih (h m x) (hgh m x hm hx ▸ hcl m x hm hx)
      (fun y hy => hl y (List.mem_cons_of_mem x hy))

/-- The running maximum with a strict-improvement step selects the
*first* element attaining the maximum of the measure over the initial
value and the list: every element measures at most the result, and every
element strictly before the result's position measures strictly below
it. -/
theorem intRunMax_first_max {α : Type} (f : α → Int) :
    ∀ (l : List α) (m : α),
      ∃ l1 l2, m :: l = l1 ++ (l.foldl (intMaxStep f) m) :: l2
        ∧ (∀ w ∈ m :: l, f w ≤ f (l.foldl (intMaxStep f) m))
        ∧ (∀ w ∈ l1, f w < f (l.foldl (intMaxStep f) m)) := by
  intro l
  induction l with
  | nil =>
    intro m
    refine ⟨[], [], by simp, ?_, by simp⟩
    intro w hw
    rcases List.mem_cons.mp hw with h | h
    · subst h; simp
    · exact absurd h (by simp)
  | cons x xs ih =>
    intro m
    rw [List.foldl_cons]
    by_cases hlt : f m < f x
    · have hstep : intMaxStep f m x = x := by simp [intMaxStep, hlt]
      rw [hstep]
      obtain ⟨l1, l2, hdec, hmax, hpre⟩ := ih x
      have hxr : f x ≤ f (xs.foldl (intMaxStep f) x) :=
        hmax x (List.mem_cons_self x xs)
      refine ⟨m :: l1, l2, ?_, ?_, ?_⟩
      · rw [List.cons_append, ← hdec]
      · intro w hw
        rcases List.mem_cons.mp hw with h | h
        · subst h; exact le_of_lt (lt_of_lt_of_le hlt hxr)
        · exact hmax w h
      · intro w hw
        rcases List.mem_cons.mp hw with h | h
        · subst h; exact lt_of_lt_of_le hlt hxr
        · exact hpre w h
    · have hstep : intMaxStep f m x = m := by simp [intMaxStep, hlt]
      rw [hstep]
      obtain ⟨l1, l2, hdec, hmax, hpre⟩ := ih m
      have hxle : f x ≤ f m := not_lt.mp hlt
      have hmr : f m ≤ f (xs.foldl (intMaxStep f) m) :=
        hmax m (List.mem_cons_self m xs)
      cases l1 with
      | nil =>
        simp only [List.nil_append] at hdec
        injection hdec with h1 h2
        refine ⟨[], x :: xs, ?_, ?_, by simp⟩
        · rw [List.nil_append, ← h1]
        · intro w hw
          rcases List.mem_cons.mp hw with h | h
          · subst h; exact hmr
          · rcases List.mem_cons.mp h with h' | h'
            · subst h'; exact le_trans hxle hmr
            · exact hmax w (List.mem_cons_of_mem m h')
      | cons m' l1' =>
        rw [List.cons_append] at hdec
        injection hdec with h1 h2
        have hmlt : f m < f (xs.foldl (intMaxStep f) m) :=
          h1 ▸ hpre m' (List.mem_cons_self m' l1')
        refine ⟨m :: x :: l1', l2, ?_, ?_, ?_⟩
        · rw [List.cons_append, List.cons_append, ← h2]
        · intro w hw
          rcases List.mem_cons.mp hw with h | h
          · subst h; exact le_of_lt hmlt
          · rcases List.mem_cons.mp h with h' | h'
            · subst h'; exact le_trans hxle (le_of_lt hmlt)
            · exact hmax w (List.mem_cons_of_mem m h')
        · intro w hw
          rcases List.mem_cons.mp hw with h | h
          · subst h; exact hmlt
          · rcases List.mem_cons.mp h with h' | h'
            · subst h'; exact lt_of_le_of_lt hxle hmlt
            · exact hpre w (List.mem_cons_of_mem m' h')

/-- A membership in `validVersions` carries the filter's two facts:
parseable `versionCode` and non-empty `versionName`. -/
theorem mem_validVersions {d : IniData} {v : MCPEVersion}
    (h : v ∈ validVersions d) :
    v.versionCode.isSome = true ∧ v.versionName ≠ "" := by
  have h2 := (List.mem_filter.mp h).2
  simp only [Bool.and_eq_true, Bool.not_eq_true', beq_eq_false_iff_ne] at h2
  exact h2

/-- On records with parseable codes the source's step function is the
integer running-max step. -/
theorem runStep_eq_intMaxStep (a b : MCPEVersion)
    (ha : a.versionCode.isSome = true) (hb : b.versionCode.isSome = true) :
    (if jsNumGt b.versionCode a.versionCode then b else a) =
      intMaxStep valOf a b := by
  obtain ⟨x, hx⟩ := Option.isSome_iff_exists.mp ha
  obtain ⟨y, hy⟩ := Option.isSome_iff_exists.mp hb
  by_cases hc : x < y
  · simp [intMaxStep, valOf, jsNumGt, hx, hy, hc]
  · simp [intMaxStep, valOf, jsNumGt, hx, hy, hc]

/-- C3: whenever the parsed document yields at least one record with a
parseable `versionCode` and a non-empty `versionName`, the Version
Selector returns `<root>/versions/<name>/assets` for the record `v` that
is the *first* record attaining the strictly greatest `versionCode`
among the valid records: no valid record compares strictly above `v`,
and every valid record before `v`'s position compares strictly below it
(so on ties the earliest record — the running-maximum initializer —
wins). -/
theorem selectVersion_picks_first_strict_max (d : IniData) (root : String)
    (hne : validVersions d ≠ []) :
    ∃ v l1 l2,
      validVersions d = l1 ++ v :: l2
      ∧ selectVersion d root =
          .ok (pathJoin (pathJoin (pathJoin root "versions") v.versionName)
            "assets")
      ∧ (∀ w ∈ validVersions d,
          jsNumGt w.versionCode v.versionCode = false)
      ∧ (∀ w ∈ l1, jsNumGt v.versionCode w.versionCode = true) := by
  obtain ⟨v0, rest, hv⟩ : ∃ v0 rest, validVersions d = v0 :: rest := by
    cases h : validVersions d with
    | nil => exact absurd h hne
    | cons a l => exact ⟨a, l, rfl⟩
  have hall : ∀ w ∈ validVersions d, w.versionCode.isSome = true :=
    fun w hw => (mem_validVersions hw).1
  have h0 : v0.versionCode.isSome = true :=
    hall v0 (by rw [hv]; exact List.mem_cons_self v0 rest)
  have hrest : ∀ w ∈ rest, w.versionCode.isSome = true :=
    fun w hw => hall w (by rw [hv]; exact List.mem_cons_of_mem v0 hw)
  have hsel : selectVersion d root =
      .ok (pathJoin (pathJoin (pathJoin root "versions")
        (runningMax (v0 :: rest) v0).versionName) "assets") := by
    simp only [selectVersion, hv]
  have hself : runningMax (v0 :: rest) v0 = runningMax rest v0 := by
    simp only [runningMax, List.foldl_cons, ite_self]
  have hcong : runningMax rest v0 = rest.foldl (intMaxStep valOf) v0 := by
    unfold runningMax
    exact foldl_congr_pred (fun w => w.versionCode.isSome = true)
      (fun m v => if jsNumGt v.versionCode m.versionCode then v else m)
      (intMaxStep valOf)
      (fun a b ha hb => runStep_eq_intMaxStep a b ha hb)
      (fun a b ha hb => by
        show (if jsNumGt b.versionCode a.versionCode then b else a).versionCode.isSome = true
        rcases runStep_choice a b with h | h <;> rw [h]
        · exact ha
        · exact hb)
      rest v0 h0 hrest
  obtain ⟨l1, l2, hdec, hmax, hpre⟩ := intRunMax_first_max valOf rest v0
  set r := rest.foldl (intMaxStep valOf) v0 with hrdef
  have hrmem : r ∈ validVersions d := by
    rw [hv, hdec]
    exact List.mem_append_right l1 (List.mem_cons_self r l2)
  have hrs : r.versionCode.isSome = true := hall r hrmem
  obtain ⟨y, hy⟩ := Option.isSome_iff_exists.mp hrs
  refine ⟨r, l1, l2, ?_, ?_, ?_, ?_⟩
  · rw [hv, hdec]
  · rw [hsel, hself, hcong]
  · intro w hw
    have hw' : w ∈ v0 :: rest := by rw [← hv]; exact hw
    obtain ⟨x, hx⟩ := Option.isSome_iff_exists.mp (hall w hw)
    have hle : valOf w ≤ valOf r := hmax w hw'
    simp only [valOf, hx, hy, Option.getD_some] at hle
    simp [jsNumGt, hx, hy, not_lt.mpr hle]
  · intro w hw
    have hwmem : w ∈ validVersions d := by
      rw [hv, hdec]
      exact List.mem_append_left _ hw
    obtain ⟨x, hx⟩ := Option.isSome_iff_exists.mp (hall w hwmem)
    have hlt : valOf w < valOf r := hpre w hw
    simp only [valOf, hx, hy, Option.getD_some] at hlt
    simp [jsNumGt, hx, hy, hlt]

/-- C3 witness: the theorem applied to the two-section document; the
selected path is concretely `"/r/versions/y/assets"`. -/
theorem selectVersion_picks_first_strict_max_witness :
    (∃ v l1 l2,
      validVersions sampleVersionsDoc = l1 ++ v :: l2
      ∧ selectVersion sampleVersionsDoc "/r" =
          .ok (pathJoin (pathJoin (pathJoin "/r" "versions") v.versionName)
            "assets")
      ∧ (∀ w ∈ validVersions sampleVersionsDoc,
          jsNumGt w.versionCode v.versionCode = false)
      ∧ (∀ w ∈ l1, jsNumGt v.versionCode w.versionCode = true))
    ∧ selectVersion sampleVersionsDoc "/r" = .ok "/r/versions/y/assets" :=
  ⟨selectVersion_picks_first_strict_max sampleVersionsDoc "/r" (by decide),
   rfl⟩

/-- C5: the Version Selector discards every record whose `versionCode`
did not parse or whose `versionName` is empty — when every parsed record
is invalid it fails with the error that names the versions.ini path (the
path is a suffix of the message) — and any successful selection comes
from a surviving record, i.e. one with a parseable code and a non-empty
name, so an empty-named record is never selected regardless of its
code. -/
theorem selectVersion_discards_invalid (d : IniData) (root : String) :
    ((∀ v ∈ d.sections.map (fun s => parseVersionSection s.2),
        v.versionCode = none ∨ v.versionName = "") →
      selectVersion d root =
        .error (noValidVersionMsg (pathJoin root "versions/versions.ini")))
    ∧ (∀ q, selectVersion d root = .ok q →
        ∃ v, v ∈ validVersions d ∧ v.versionCode.isSome = true
          ∧ v.versionName ≠ ""
          ∧ q = pathJoin (pathJoin (pathJoin root "versions") v.versionName)
              "assets")
    ∧ (∃ pre, noValidVersionMsg (pathJoin root "versions/versions.ini")
        = pre ++ pathJoin root "versions/versions.ini") := by
  refine ⟨?_, ?_, ⟨_, rfl⟩⟩
  · intro hinv
    have hnil : validVersions d = [] := by
      rw [validVersions, List.filter_eq_nil_iff]
      intro v hv
      rcases hinv v hv with h | h <;> simp [h]
    simp only [selectVersion, hnil]
  · intro q hq
    cases h : validVersions d with
    | nil =>
      simp only [selectVersion, h] at hq
      exact absurd hq (by simp)
    | cons v0 rest =>
      simp only [selectVersion, h] at hq
      rw [Except.ok.injEq] at hq
      have hmem0 : runningMax (v0 :: rest) v0 ∈ v0 :: (v0 :: rest) :=
        foldl_mem_of_choice _ runStep_choice (v0 :: rest) v0
      have hmem : runningMax (v0 :: rest) v0 ∈ v0 :: rest := by
        rcases List.mem_cons.mp hmem0 with h' | h'
        · rw [h']; exact List.mem_cons_self v0 rest
        · exact h'
      have hmem' : runningMax (v0 :: rest) v0 ∈ validVersions d := by
        rw [h]; exact hmem
      obtain ⟨hs, hn⟩ := mem_validVersions hmem'
      exact ⟨runningMax (v0 :: rest) v0, hmem, hs, hn, hq.symm⟩

/-- C5 witness: the theorem applied to the all-invalid document; the
selector fails with the error naming the metadata path. -/
theorem selectVersion_discards_invalid_witness :
    selectVersion sampleInvalidDoc "/r" =
      .error (noValidVersionMsg (pathJoin "/r" "versions/versions.ini")) :=
  (selectVersion_discards_invalid sampleInvalidDoc "/r").1 (by decide)

/-- When some listed result is an error, `collectResults` rejects. -/
theorem collectResults_error_of_mem (sel : String → Except String String) :
    ∀ (xs : List String), (∃ r ∈ xs, ∃ e, sel r = .error e) →
      ∃ e', collectResults (xs.map sel) = .error e' := by
  intro xs
  induction xs with
  | nil => rintro ⟨r, hr, -⟩; exact absurd hr (by simp)
  | cons x rest ih =>
    rintro ⟨r, hr, e, he⟩
    cases hx : sel x with
    | error e0 => exact ⟨e0, by simp [collectResults, hx]⟩
    | ok p =>
      have hrest : r ∈ rest := by
        rcases List.mem_cons.mp hr with h | h
        · subst h
          rw [hx] at he
          exact absurd he (by simp)
        · exact h
      obtain ⟨e', he'⟩ := ih ⟨r, hrest, e, he⟩
      refine ⟨e', ?_⟩
      simp only [List.map_cons, collectResults, hx, he']

/-- When `collectResults` succeeds, the output lists one success per
input, in the input order. -/
theorem collectResults_ok (sel : String → Except String String) :
    ∀ (xs : List String) (l : List String),
      collectResults (xs.map sel) = .ok l →
      List.Forall₂ (fun r q => sel r = .ok q) xs l := by
  intro xs
  induction xs with
  | nil =>
    intro l hl
    simp only [List.map_nil, collectResults] at hl
    cases hl
    exact List.Forall₂.nil
  | cons x rest ih =>
    intro l hl
    cases hx : sel x with
    | error e0 => simp [collectResults, hx] at hl
    | ok p =>
      simp only [List.map_cons, collectResults, hx] at hl
      cases hrest : collectResults (rest.map sel) with
      | error e => rw [hrest] at hl; exact absurd hl (by simp)
      | ok ps =>
        rw [hrest] at hl
        cases hl
        exact List.Forall₂.cons hx (ih ps hrest)

/-- C4: on the multi-root platforms the asset resolvers are the
existence-filter-then-fan-out `mapExistingRoots` over their root candidate
lists; if any surviving root's Version Selector invocation fails the
whole fan-out fails (even when another root's invocation succeeds), and
when every invocation succeeds the results pair up with the surviving
roots in the original candidate order. -/
theorem assets_fanout_fail_fast_ordered (home : String)
    (fsE : String → Bool) (fsR : String → Except IOErr String)
    (sel : String → Except String String) (roots : List String) :
    getAssetsLocations_Linux home fsE fsR =
      mapExistingRoots fsE (getAssetsLocation_mcpelauncher fsR)
        (linuxLauncherRoots home)
    ∧ getAssetsLocations_MacOS home fsE fsR =
      mapExistingRoots fsE (getAssetsLocation_mcpelauncher fsR)
        (macLauncherRoots home)
    ∧ ((∃ r ∈ roots.filter fsE, ∃ e, sel r = .error e) →
        ∃ e', mapExistingRoots fsE sel roots = .error e')
    ∧ (∀ l, mapExistingRoots fsE sel roots = .ok l →
        List.Forall₂ (fun r q => sel r = .ok q) (roots.filter fsE) l) := by
  refine ⟨rfl, rfl, ?_, ?_⟩
  · exact collectResults_error_of_mem sel (roots.filter fsE)
  · exact collectResults_ok sel (roots.filter fsE)

/-- C4 witness: two surviving roots, the selector succeeding on the first
and failing on the second; the fan-out fails as a whole. -/
theorem assets_fanout_fail_fast_ordered_witness :
    ∃ e', mapExistingRoots (fun _ => true)
      (fun r => if r = "/a" then .ok "/a/versions/x/assets" else .error "no valid version")
      ["/a", "/b"] = .error e' :=
  (assets_fanout_fail_fast_ordered "/home/u" (fun _ => true)
      (fun q => .error ⟨q, "ENOENT"⟩)
      (fun r => if r = "/a" then .ok "/a/versions/x/assets" else .error "no valid version")
      ["/a", "/b"]).2.2.1
    ⟨"/b", by decide, "no valid version", rfl⟩
